import Mathlib

set_option linter.unusedVariables false

/-!
Verification of the corpus loader and model adapter in
`src/ESPnetEZ/ST/integrate_huggingface.ipynb`.

The notebook defines two classes:

* `CustomDataset` — reads two line-oriented text files (`text.tc.de`, the
  translation file, and `text`, the transcript file), each line being
  `<identifier><whitespace><text>`, into an insertion-ordered dictionary,
  and serves records by integer index (audio resolved through an external
  kaldi loader, modelled here as an abstract function).
* `CustomFinetuneModel` — an adapter whose `forward` runs an external ASR
  model on the first element of the speech batch, feeds the transcript to
  an external translation model to obtain a loss, accumulates the loss for
  periodic logging, and returns `loss, stats, None` where `stats` is an
  undefined name.

External components (the kaldi loader, the ASR model, the tokenizer, the
translation model) are abstracted as function parameters; everything the
notebook itself computes is embedded concretely.  Python floats are
idealised as rationals.
-/

/-- Python exceptions that the embedded code can raise. -/
inductive PyError where
  | valueError : PyError
  | keyError : String → PyError
  | indexError : PyError
  | nameError : String → PyError
  | zeroDivisionError : PyError
  deriving DecidableEq, Repr

/-- Python `str.isspace` characters relevant to `str.strip` / `str.split`. -/
def pyIsSpace (c : Char) : Bool :=
  c = ' ' || c = '\t' || c = '\n' || c = '\x0b' || c = '\x0c' || c = '\r'

/-- Python `str.strip()`: remove leading and trailing whitespace. -/
def pyStrip (s : String) : String :=
  String.mk (((s.toList.dropWhile pyIsSpace).reverse.dropWhile pyIsSpace).reverse)

/-- Python `str.split(maxsplit=1)`: skip leading whitespace, cut the first
whitespace-delimited field, skip the delimiting whitespace run, and keep the
remainder verbatim.  Returns `[]` on all-whitespace input, a one-element list
when there is no remainder. -/
def pySplitMax1 (s : String) : List String :=
  let cs := s.toList.dropWhile pyIsSpace
  match cs with
  | [] => []
  | _ =>
    let fst := cs.takeWhile (fun c => !(pyIsSpace c))
    let rest := (cs.dropWhile (fun c => !(pyIsSpace c))).dropWhile pyIsSpace
    match rest with
    | [] => [String.mk fst]
    | _ => [String.mk fst, String.mk rest]

/-- The apostrophe character `'` (written via its code point). -/
def aposChar : Char := Char.ofNat 39

/-- The one-character string `'`. -/
def aposStr : String := String.singleton aposChar

/-- `audio_id, text = line.strip().split(maxsplit=1)` — unpacking a list of
length ≠ 2 raises `ValueError`. -/
def parseLine (line : String) : Except PyError (String × String) :=
  match pySplitMax1 (pyStrip line) with
  | [a, t] => Except.ok (a, t)
  | _ => Except.error PyError.valueError

/-- Scanner for Python `str.replace`: in mode `0` it looks for the pattern
at the current position, emitting the replacement and then skipping the rest
of the matched pattern (the `n+1` mode skips `n+1` already-matched
characters); occurrences are replaced left to right, non-overlapping. -/
def repAux (pat rep : List Char) : Nat → List Char → List Char
  | _, [] => []
  | 0, c :: rest =>
    if pat.isPrefixOf (c :: rest) then
      rep ++ repAux pat rep (pat.length - 1) rest
    else c :: repAux pat rep 0 rest
  | n + 1, _ :: rest => repAux pat rep n rest

/-- Python `s.replace(pat, rep)` for a non-empty pattern. -/
def pyReplace (s pat rep : String) : String :=
  if pat.toList.isEmpty then s
  else String.mk (repAux pat.toList rep.toList 0 s.toList)

/-- The escape decoding applied to each text field:
`.replace(" &apos;", "'").replace(" &quot;", '"').replace(" &amp;", "&")`.
Note each pattern includes a leading space that is consumed by the
replacement. -/
def decodeEscapes (s : String) : String :=
  pyReplace (pyReplace (pyReplace s " &apos;" aposStr) " &quot;" "\"")
    " &amp;" "&"

/-- One record of `self.data`: the translation pass stores `translated`;
the transcript pass later adds `text` (so `text` is optional). -/
structure Entry where
  translated : String
  text : Option String
  deriving DecidableEq, Repr

/-- Lookup in an insertion-ordered dictionary (Python `dict` access). -/
def assocFind (m : List (String × Entry)) (k : String) : Option Entry :=
  match m with
  | [] => none
  | (k', v) :: rest => if k' = k then some v else assocFind rest k

/-- Python `d[k] = v`: replace in place when the key exists (a dict keeps the
original insertion position), append otherwise. -/
def assocUpdate (m : List (String × Entry)) (k : String) (v : Entry) :
    List (String × Entry) :=
  match m with
  | [] => [(k, v)]
  | (k', v') :: rest =>
    if k' = k then (k, v) :: rest else (k', v') :: assocUpdate rest k v

/-- One line of the translation pass of `CustomDataset.__init__`:
`self.data[audio_id] = {'translated': translated}` (a fresh record,
overwriting any previous one for the same identifier). -/
def applyTransl (m : List (String × Entry)) (line : String) :
    Except PyError (List (String × Entry)) :=
  (parseLine line).map fun p =>
    assocUpdate m p.1 { translated := decodeEscapes p.2, text := none }

/-- One line of the transcript pass of `CustomDataset.__init__`:
`self.data[audio_id]['text'] = text` — raises `KeyError` when the identifier
was not seen in the translation file. -/
def applyText (m : List (String × Entry)) (line : String) :
    Except PyError (List (String × Entry)) :=
  (parseLine line).bind fun p =>
    match assocFind m p.1 with
    | none => Except.error (PyError.keyError p.1)
    | some r =>
      Except.ok (assocUpdate m p.1 { r with text := some (decodeEscapes p.2) })

/-- The dataset object after a successful `__init__`.  `loader` abstracts the
external `kaldi_loader(f"{data_path}/wav.scp")`; `W` is the waveform type. -/
structure CustomDataset (W : Type) where
  data : List (String × Entry)
  keys : List String
  loader : String → W

/-- `CustomDataset.__init__`: the translation pass over `text.tc.de`, then
the transcript pass over `text`, then `self.keys = list(self.data.keys())`.
File contents are given as lists of lines (terminators already removed, as
`strip()` would delete them anyway). -/
def CustomDataset.init (loader : String → W)
    (translLines textLines : List String) :
    Except PyError (CustomDataset W) := do
  let d ← translLines.foldlM applyTransl []
  let d ← textLines.foldlM applyText d
  pure { data := d, keys := d.map Prod.fst, loader := loader }

/-- `CustomDataset.__len__`: `len(self.keys)`. -/
def CustomDataset.len (ds : CustomDataset W) : Nat := ds.keys.length

/-- The record returned by `__getitem__`
(`{'speech': ..., 'text': ..., 'translated': ...}`). -/
structure Item (W : Type) where
  speech : W
  text : String
  translated : String

/-- `CustomDataset.__getitem__`: Python list indexing on `self.keys`
(negative indices count from the end, out-of-range raises `IndexError`),
then the dict accesses `self.data[key]['text']` (raising `KeyError('text')`
when the transcript pass never filled the field) and
`self.data[key]['translated']`.  `astype(np.float32)` is an identity on the
abstract waveform. -/
def CustomDataset.getitem (ds : CustomDataset W) (idx : Int) :
    Except PyError (Item W) :=
  let n : Int := ds.keys.length
  let j : Int := if 0 ≤ idx then idx else n + idx
  if h : 0 ≤ j ∧ j < n then
    let key := ds.keys.get ⟨j.toNat, by
      have h1 := h.1
      have h2 := h.2
      omega⟩
    match assocFind ds.data key with
    | none => Except.error (PyError.keyError key)
    | some r =>
      match r.text with
      | none => Except.error (PyError.keyError "text")
      | some t => Except.ok { speech := ds.loader key, text := t,
                              translated := r.translated }
  else Except.error PyError.indexError

/-- `__len__` in explicit state-passing form: the method body reads
`self.keys` and assigns no attribute, so it returns the state unchanged. -/
def CustomDataset.lenS (ds : CustomDataset W) : Nat × CustomDataset W :=
  (ds.keys.length, ds)

/-- `__getitem__` in explicit state-passing form: the method body reads
`self.loader`, `self.keys` and `self.data` and assigns no attribute, so it
returns the state unchanged. -/
def CustomDataset.getitemS (ds : CustomDataset W) (idx : Int) :
    Except PyError (Item W) × CustomDataset W :=
  (CustomDataset.getitem ds idx, ds)

/-- The identifiers parsed from a file's lines (for lines that parse). -/
def idsOf (lines : List String) : List String :=
  lines.filterMap fun l => ((parseLine l).toOption).map Prod.fst

/-- Python `str.capitalize()`: first character uppercased, the rest
lowercased. -/
def pyCapitalize (s : String) : String :=
  match s.toList with
  | [] => ""
  | c :: rest => String.mk (c.toUpper :: rest.map Char.toLower)

/-- The external components `CustomFinetuneModel.__init__` loads, plus the
`log_every` constructor parameter.  `asrTop w` abstracts
`self.asr_model(w)[0][0]` (best-hypothesis text of the external ASR model),
`tokenize` abstracts `self.lm_tokenizer(...).input_ids`, and `lmLoss tok lab`
abstracts `self.lm(input_ids=tok, labels=lab).loss.item()` (floats idealised
as rationals).  `W` is the waveform type, `T` the token-tensor type. -/
structure FTConfig (W T : Type) where
  log_every : Nat
  asrTop : W → String
  tokenize : String → T
  lmLoss : T → T → ℚ

/-- `self.log_stats`, the dictionary `{'loss': ...}`. -/
structure LogStats where
  loss : ℚ
  deriving DecidableEq, Repr

/-- The mutable attributes of `CustomFinetuneModel`: `self.log_stats` and
`self.iter_count`. -/
structure FTState where
  log_stats : LogStats
  iter_count : Nat
  deriving DecidableEq, Repr

/-- The state set up by `__init__`: `self.log_stats = {'loss': 0}`,
`self.iter_count = 0`. -/
def FTState.initial : FTState :=
  { log_stats := { loss := 0 }, iter_count := 0 }

/-- Everything one call of `forward` produces: the new attribute state, the
log line printed (if any, as the pair of `iter_count` and the printed mean),
and the returned value or the exception raised. -/
structure ForwardOut where
  state : FTState
  logged : Option (Nat × ℚ)
  result : Except PyError (ℚ × Unit × Unit)

/-- `CustomFinetuneModel.forward`.  `speech[0]` raises `IndexError` on an
empty batch; `self.iter_count % self.log_every` raises `ZeroDivisionError`
when `log_every == 0`; otherwise execution reaches
`return loss, stats, None`, and the undefined name `stats` raises
`NameError`.  `speech.device` is not modelled (it selects hardware placement
and affects no value computed here). -/
def CustomFinetuneModel.forward (cfg : FTConfig W T) (st : FTState)
    (speech : List W) (speech_lengths : Nat) (text : T) (text_lengths : Nat) :
    ForwardOut :=
  match speech with
  | [] => { state := st, logged := none,
            result := Except.error PyError.indexError }
  | w :: _ =>
    let asr_texts := cfg.asrTop w
    let asr_texts := "translate English to German: " ++ pyCapitalize asr_texts
    let target_tokens := cfg.tokenize asr_texts
    let loss := cfg.lmLoss target_tokens text
    let acc := st.log_stats.loss + loss
    let n := st.iter_count + 1
    if cfg.log_every = 0 then
      { state := { log_stats := { loss := acc }, iter_count := n },
        logged := none, result := Except.error PyError.zeroDivisionError }
    else if n % cfg.log_every = 0 then
      { state := { log_stats := { loss := 0 }, iter_count := n },
        logged := some (n, acc / (cfg.log_every : ℚ)),
        result := Except.error (PyError.nameError "stats") }
    else
      { state := { log_stats := { loss := acc }, iter_count := n },
        logged := none, result := Except.error (PyError.nameError "stats") }

/-- The `feats` dictionary returned by `collect_feats`. -/
structure Feats (T : Type) where
  feats : T
  feats_lengths : T
  deriving DecidableEq

/-- `CustomFinetuneModel.collect_feats`, in state-passing form: it returns
`{"feats": speech, "feats_lengths": speech_lengths}` and assigns no
attribute. -/
def CustomFinetuneModel.collect_feats (st : FTState)
    (speech speech_lengths : T) : Feats T × FTState :=
  ({ feats := speech, feats_lengths := speech_lengths }, st)

/-- The arguments of one `forward` call. -/
structure Batch (W T : Type) where
  speech : List W
  speech_lengths : Nat
  text : T
  text_lengths : Nat

/-- A sequence of `forward` calls on one model instance, collecting the
emitted log lines in order. -/
def runForward (cfg : FTConfig W T) (st : FTState) :
    List (Batch W T) → FTState × List (Nat × ℚ)
  | [] => (st, [])
  | b :: rest =>
    let o := CustomFinetuneModel.forward cfg st b.speech b.speech_lengths
      b.text b.text_lengths
    let r := runForward cfg o.state rest
    (r.1, o.logged.toList ++ r.2)

/-- The scalar loss one `forward` call accumulates for the given batch (the
value of `lm_output.loss.item()` there). -/
def lossOf (cfg : FTConfig W T) (b : Batch W T) : ℚ :=
  match b.speech with
  | [] => 0
  | w :: _ =>
    cfg.lmLoss
      (cfg.tokenize ("translate English to German: " ++
        pyCapitalize (cfg.asrTop w)))
      b.text

/-- Stated from the spec's logging contract: after the `m`-th positive
multiple of `log_every` calls, a log line carries the call number
`(m+1)*log_every` and the arithmetic mean of the `log_every` most recent
losses. -/
def specExpectedLogs (k : Nat) (ls : List ℚ) : List (Nat × ℚ) :=
  (List.range (ls.length / k)).map fun m =>
    ((m + 1) * k, (((ls.take ((m + 1) * k)).drop (m * k)).sum) / (k : ℚ))

/-- A trivial waveform loader used for concrete instances. -/
def unitLoader : String → Unit := fun _ => ()

/-- A configuration over trivial waveforms and rational "token tensors",
used to instantiate the adapter theorems: the translation model's loss is
just the target tensor. -/
def cfgW : FTConfig Unit ℚ :=
  { log_every := 2, asrTop := fun _ => "", tokenize := fun _ => 0,
    lmLoss := fun _ t => t }

/-- The dataset built from translation lines
`["u1 a", "u2 b", "u1 c"]` and transcript line `["u1 x"]`. -/
def dsC2W : CustomDataset Unit :=
  { data := [("u1", { translated := "c", text := some "x" }),
             ("u2", { translated := "b", text := none })],
    keys := ["u1", "u2"], loader := unitLoader }

/-- The dataset built from translation lines `["u1 a", "u2 b"]` and
transcript line `["u1 x"]`: the identifier `u2` has no transcript. -/
def dsC4W : CustomDataset Unit :=
  { data := [("u1", { translated := "a", text := some "x" }),
             ("u2", { translated := "b", text := none })],
    keys := ["u1", "u2"], loader := unitLoader }

/-- Three one-waveform batches whose abstract losses are 1, 2 and 3. -/
def batchesW : List (Batch Unit ℚ) :=
  [{ speech := [()], speech_lengths := 1, text := 1, text_lengths := 1 },
   { speech := [()], speech_lengths := 1, text := 2, text_lengths := 1 },
   { speech := [()], speech_lengths := 1, text := 3, text_lengths := 1 }]

/-- C1 (counterexample): the transcript line `utt2 it&apos;s fine` contains
the literal substring `&apos;`, yet the stored text keeps it encoded
(`it&apos;s fine`), not decoded to an apostrophe: the replacement patterns
all require a preceding space. -/
theorem apos_without_space_stays_encoded :
    (CustomDataset.init unitLoader ["utt2 x"] ["utt2 it&apos;s fine"]).map
        (fun ds => (assocFind ds.data "utt2").map Entry.text)
      = Except.ok (some (some "it&apos;s fine"))
    ∧ ("it&apos;s fine" : String) ≠ "it" ++ aposStr ++ "s fine" := by
  refine ⟨rfl, ?_⟩
  decide

/-- C1 (amended): escapes preceded by a space are decoded, the space being
consumed together with the escape: `it &apos;s fine` becomes `it's fine`,
`a &quot; b` becomes `a" b`, and `c &amp; d` becomes `c& d`. -/
theorem space_prefixed_escapes_decoded :
    (CustomDataset.init unitLoader ["utt2 z", "utt3 z", "utt4 z"]
        ["utt2 it &apos;s fine", "utt3 a &quot; b", "utt4 c &amp; d"]).map
        (fun ds => (assocFind ds.data "utt2", assocFind ds.data "utt3",
                    assocFind ds.data "utt4"))
      = Except.ok
          (some { translated := "z", text := some ("it" ++ aposStr ++ "s fine") },
           some { translated := "z", text := some "a\" b" },
           some { translated := "z", text := some "c& d" }) := by
  rfl

/-- C2 (counterexample): the pair (translation `["u1 a", "u2 b"]`,
transcript `["u1 x"]`) is accepted without error, yet the dataset length is
2 while the transcript file has exactly one unique identifier. -/
theorem len_differs_from_transcript_ids :
    (CustomDataset.init unitLoader ["u1 a", "u2 b"] ["u1 x"]).map
        CustomDataset.len = Except.ok 2
    ∧ (idsOf ["u1 x"]).dedup.length = 1
    ∧ (2 : Nat) ≠ 1 := by
  refine ⟨rfl, rfl, ?_⟩
  decide

/-- C4 (counterexample): an identifier present in the transcript file but
absent from the translation file makes construction itself fail with
`KeyError`, rather than succeeding and failing only at access time. -/
theorem transcript_only_id_fails_init :
    CustomDataset.init unitLoader ([] : List String) ["u1 hi"]
      = Except.error (PyError.keyError "u1") := by
  rfl

/-- C8: building the dataset from translation line `utt1 Er ist spät.` and
transcript line `utt1 he is late` yields a record for key `utt1` with
`translated == "Er ist spät."` and `text == "he is late"` (identifier split
at the first whitespace, remainder verbatim). -/
theorem concrete_record_utt1 :
    (CustomDataset.init unitLoader ["utt1 Er ist spät."]
        ["utt1 he is late"]).bind (fun ds => CustomDataset.getitem ds 0)
      = Except.ok { speech := (), text := "he is late",
                    translated := "Er ist spät." } := by
  rfl

/-- C9: `__len__` and `__getitem__` assign no attribute, so in state-passing
form they return the dataset unchanged, and a repeated `__getitem__` at the
same index (on the state the first call returned) yields an identical
record. -/
theorem getitem_pure_and_stable {W : Type} (ds : CustomDataset W)
    (idx : Int) :
    (CustomDataset.getitemS ds idx).2 = ds
    ∧ (CustomDataset.lenS ds).2 = ds
    ∧ (CustomDataset.getitemS ((CustomDataset.getitemS ds idx).2) idx).1
        = (CustomDataset.getitemS ds idx).1 :=
  ⟨rfl, rfl, rfl⟩

/-- C10: `collect_feats` is an identity passthrough: it returns exactly
`{"feats": speech, "feats_lengths": speech_lengths}` and leaves the model
state untouched. -/
theorem collect_feats_identity {T : Type} (st : FTState)
    (speech speech_lengths : T) :
    CustomFinetuneModel.collect_feats st speech speech_lengths
      = ({ feats := speech, feats_lengths := speech_lengths }, st) :=
  rfl

/-- C6: `forward` depends only on the first element of the speech batch:
with identical other arguments and state, batches that agree at index 0
produce the same state, the same logging, and the same result. -/
theorem forward_depends_only_on_first_speech {W T : Type}
    (cfg : FTConfig W T) (st : FTState) (w : W) (rest rest' : List W)
    (sl : Nat) (text : T) (tl : Nat) :
    CustomFinetuneModel.forward cfg st (w :: rest) sl text tl
      = CustomFinetuneModel.forward cfg st (w :: rest') sl text tl :=
  rfl

/-- C3: whenever `forward` reaches its `return loss, stats, None` statement
(the batch is non-empty, so `speech[0]` succeeds, and `log_every` is
non-zero, so the modulo succeeds), it raises `NameError` for the undefined
variable `stats`; `forward` never returns normally. -/
theorem forward_raises_nameError_stats {W T : Type} (cfg : FTConfig W T)
    (st : FTState) (speech : List W) (sl : Nat) (text : T) (tl : Nat)
    (hne : speech ≠ []) (hk : cfg.log_every ≠ 0) :
    (CustomFinetuneModel.forward cfg st speech sl text tl).result
      = Except.error (PyError.nameError "stats") := by
  cases speech with
  | nil => exact absurd rfl hne
  | cons w ws =>
    simp only [CustomFinetuneModel.forward]
    rw [if_neg hk]
    split <;> rfl

/-- C3 (witness): a concrete `forward` call on a one-element batch raises
`NameError("stats")`. -/
theorem forward_raises_nameError_stats_witness :
    (CustomFinetuneModel.forward cfgW FTState.initial [()] 1 0 1).result
      = Except.error (PyError.nameError "stats") :=
  forward_raises_nameError_stats cfgW FTState.initial [()] 1 0 1
    (by decide) (by decide)

/-- Bind on a successful `Except` computation runs the continuation. -/
theorem exceptBind_ok {ε α β : Type} (a : α) (f : α → Except ε β) :
    (Except.ok a >>= f) = f a := rfl

/-- Bind on a failed `Except` computation propagates the error. -/
theorem exceptBind_error {ε α β : Type} (e : ε) (f : α → Except ε β) :
    ((Except.error e : Except ε α) >>= f) = Except.error e := rfl

/-- If a monadic fold over `Except` succeeds, the step function succeeded on
every element of the list (from some intermediate accumulator). -/
theorem foldlM_ok_of_mem {ε σ α : Type} (f : σ → α → Except ε σ)
    (xs : List α) (s₀ r : σ) (hok : xs.foldlM f s₀ = Except.ok r)
    (x : α) (hx : x ∈ xs) : ∃ s s', f s x = Except.ok s' := by
  induction xs generalizing s₀ with
  | nil => cases hx
  | cons y ys ih =>
    rw [List.foldlM_cons] at hok
    cases hf : f s₀ y with
    | error e =>
      rw [hf] at hok
      cases hok
    | ok s₁ =>
      rw [hf] at hok
      cases hx with
      | head => exact ⟨s₀, s₁, hf⟩
      | tail _ hmem => exact ih s₁ hok hmem

/-- A line with fewer than two whitespace-separated fields makes the
unpacking `audio_id, text = line.strip().split(maxsplit=1)` raise
`ValueError`. -/
theorem parseLine_error_of_short (l : String)
    (h : (pySplitMax1 (pyStrip l)).length < 2) :
    parseLine l = Except.error PyError.valueError := by
  unfold parseLine
  cases hm : pySplitMax1 (pyStrip l) with
  | nil => rfl
  | cons a rest =>
    cases rest with
    | nil => rfl
    | cons b rest' =>
      rw [hm] at h
      simp at h
      omega

/-- C5: if any line of the translation or the transcript file has fewer than
two whitespace-separated fields after stripping (empty lines included),
`CustomDataset.__init__` raises an error during construction — it never
silently skips the line or builds a partial dataset. -/
theorem malformed_line_fails_init {W : Type} (loader : String → W)
    (tl trl : List String) (l : String)
    (hmem : l ∈ tl ∨ l ∈ trl)
    (hbad : (pySplitMax1 (pyStrip l)).length < 2) :
    ∃ e, CustomDataset.init loader tl trl = Except.error e := by
  cases hinit : CustomDataset.init loader tl trl with
  | error e => exact ⟨e, rfl⟩
  | ok ds =>
    exfalso
    unfold CustomDataset.init at hinit
    cases h1 : tl.foldlM applyTransl [] with
    | error e => rw [h1] at hinit; cases hinit
    | ok d1 =>
      rw [h1, exceptBind_ok] at hinit
      cases h2 : trl.foldlM applyText d1 with
      | error e =>
        rw [h2] at hinit
        cases hinit
      | ok d2 =>
        cases hmem with
        | inl hin =>
          obtain ⟨s, s', hs⟩ := foldlM_ok_of_mem applyTransl tl [] d1 h1 l hin
          rw [applyTransl, parseLine_error_of_short l hbad] at hs
          cases hs
        | inr hin =>
          obtain ⟨s, s', hs⟩ := foldlM_ok_of_mem applyText trl d1 d2 h2 l hin
          rw [applyText, parseLine_error_of_short l hbad] at hs
          cases hs

/-- C5 (witness): the one-field translation line `u1` makes construction
fail. -/
theorem malformed_line_fails_init_witness :
    ∃ e, CustomDataset.init unitLoader ["u1"] [] = Except.error e :=
  malformed_line_fails_init unitLoader ["u1"] [] "u1"
    (Or.inl (by simp)) (by decide)

/-- Mapping over a successful `Except` computation applies the function. -/
theorem exceptMap_ok {ε α β : Type} (f : α → β) (a : α) :
    Except.map f (Except.ok a : Except ε α) = Except.ok (f a) := rfl

/-- Mapping over a failed `Except` computation propagates the error. -/
theorem exceptMap_error {ε α β : Type} (f : α → β) (e : ε) :
    Except.map f (Except.error e : Except ε α) = Except.error e := rfl

/-- `idsOf` on a cons: the head contributes its identifier when it parses. -/
theorem idsOf_cons (l : String) (ls : List String) :
    idsOf (l :: ls) = (match parseLine l with
      | Except.ok p => p.1 :: idsOf ls
      | Except.error _ => idsOf ls) := by
  cases hp : parseLine l <;>
    simp [idsOf, List.filterMap_cons, hp, Except.toOption]

/-- `d[k] = v` leaves the key list unchanged when `k` is already a key, and
appends `k` otherwise. -/
theorem assocUpdate_keys (m : List (String × Entry)) (k : String) (v : Entry) :
    (assocUpdate m k v).map Prod.fst =
      if k ∈ m.map Prod.fst then m.map Prod.fst
      else m.map Prod.fst ++ [k] := by
  induction m with
  | nil => simp [assocUpdate]
  | cons p rest ih =>
    obtain ⟨k', v'⟩ := p
    by_cases h : k' = k
    · subst h
      simp [assocUpdate]
    · simp only [assocUpdate, if_neg h, List.map_cons, ih]
      by_cases hin : k ∈ rest.map Prod.fst
      · rw [if_pos hin, if_pos (List.mem_cons_of_mem _ hin)]
      · rw [if_neg hin, if_neg ?_, List.cons_append]
        simp only [List.mem_cons]
        rintro (hk | hk)
        · exact h hk.symm
        · exact hin hk

/-- A successful dictionary lookup means the key is present. -/
theorem assocFind_mem (m : List (String × Entry)) (k : String) (r : Entry)
    (h : assocFind m k = some r) : k ∈ m.map Prod.fst := by
  induction m with
  | nil => cases h
  | cons p rest ih =>
    obtain ⟨k', v'⟩ := p
    by_cases hk : k' = k
    · subst hk; simp
    · simp only [assocFind, if_neg hk] at h
      simp [ih h]

/-- After a successful translation pass the key list is duplicate-free
(when it started so) and holds exactly the starting keys plus the
identifiers of the processed lines. -/
theorem foldlM_applyTransl_keys (tl : List String)
    (m₀ m : List (String × Entry))
    (h : tl.foldlM applyTransl m₀ = Except.ok m) :
    ((m₀.map Prod.fst).Nodup → (m.map Prod.fst).Nodup)
    ∧ ∀ x, x ∈ m.map Prod.fst ↔ x ∈ m₀.map Prod.fst ∨ x ∈ idsOf tl := by
  induction tl generalizing m₀ with
  | nil =>
    simp only [List.foldlM_nil] at h
    cases h
    exact ⟨id, fun x => by simp [idsOf]⟩
  | cons l ls ih =>
    rw [List.foldlM_cons] at h
    cases hp : parseLine l with
    | error e =>
      rw [show applyTransl m₀ l = Except.error e by
        simp [applyTransl, hp, exceptMap_error]] at h
      cases h
    | ok p =>
      rw [show applyTransl m₀ l
            = Except.ok (assocUpdate m₀ p.1
                { translated := decodeEscapes p.2, text := none }) by
          simp [applyTransl, hp, exceptMap_ok], exceptBind_ok] at h
      obtain ⟨hnd, hmem⟩ := ih _ h
      have hids : idsOf (l :: ls) = p.1 :: idsOf ls := by
        rw [idsOf_cons, hp]
      have hkeys := assocUpdate_keys m₀ p.1
        { translated := decodeEscapes p.2, text := none }
      constructor
      · intro h₀
        apply hnd
        rw [hkeys]
        split_ifs with hin
        · exact h₀
        · simp [List.nodup_append, h₀, hin]
      · intro x
        rw [hmem x, hkeys, hids]
        by_cases hin : p.1 ∈ m₀.map Prod.fst
        · rw [if_pos hin]
          simp only [List.mem_cons]
          constructor
          · rintro (hx | hx)
            · exact Or.inl hx
            · exact Or.inr (Or.inr hx)
          · rintro (hx | hx | hx)
            · exact Or.inl hx
            · exact Or.inl (hx ▸ hin)
            · exact Or.inr hx
        · rw [if_neg hin]
          simp only [List.mem_append, List.mem_cons,
            List.mem_singleton]
          tauto

/-- A successful transcript-pass step parsed its line, found the identifier
among the existing keys, and left the key list unchanged. -/
theorem applyText_ok_keys (m₀ m₁ : List (String × Entry)) (l : String)
    (h : applyText m₀ l = Except.ok m₁) :
    ∃ p, parseLine l = Except.ok p ∧ p.1 ∈ m₀.map Prod.fst
      ∧ m₁.map Prod.fst = m₀.map Prod.fst := by
  unfold applyText at h
  cases hp : parseLine l with
  | error e => rw [hp] at h; cases h
  | ok p =>
    rw [hp] at h
    replace h :
        (match assocFind m₀ p.1 with
          | none => Except.error (PyError.keyError p.1)
          | some r => Except.ok
              (assocUpdate m₀ p.1 { r with text := some (decodeEscapes p.2) }))
          = Except.ok m₁ := h
    cases hf : assocFind m₀ p.1 with
    | none => rw [hf] at h; cases h
    | some r =>
      rw [hf] at h
      cases h
      have hmem := assocFind_mem m₀ p.1 r hf
      exact ⟨p, rfl, hmem, by rw [assocUpdate_keys, if_pos hmem]⟩

/-- The transcript pass never changes the key list. -/
theorem foldlM_applyText_keys (trl : List String)
    (m₀ m : List (String × Entry))
    (h : trl.foldlM applyText m₀ = Except.ok m) :
    m.map Prod.fst = m₀.map Prod.fst := by
  induction trl generalizing m₀ with
  | nil => simp only [List.foldlM_nil] at h; cases h; rfl
  | cons l ls ih =>
    rw [List.foldlM_cons] at h
    cases hstep : applyText m₀ l with
    | error e => rw [hstep] at h; cases h
    | ok m₁ =>
      rw [hstep, exceptBind_ok] at h
      obtain ⟨p, _, _, hkeys⟩ := applyText_ok_keys m₀ m₁ l hstep
      rw [ih m₁ h, hkeys]

/-- When the transcript pass succeeds, every identifier it parsed was
already a key. -/
theorem foldlM_applyText_ids (trl : List String)
    (m₀ m : List (String × Entry))
    (h : trl.foldlM applyText m₀ = Except.ok m) :
    ∀ a ∈ idsOf trl, a ∈ m₀.map Prod.fst := by
  induction trl generalizing m₀ with
  | nil => simp [idsOf]
  | cons l ls ih =>
    rw [List.foldlM_cons] at h
    cases hstep : applyText m₀ l with
    | error e => rw [hstep] at h; cases h
    | ok m₁ =>
      rw [hstep, exceptBind_ok] at h
      obtain ⟨p, hp, hmem, hkeys⟩ := applyText_ok_keys m₀ m₁ l hstep
      intro a ha
      rw [show idsOf (l :: ls) = p.1 :: idsOf ls by rw [idsOf_cons, hp]] at ha
      cases ha with
      | head => exact hmem
      | tail _ htl =>
        have := ih m₁ h a htl
        rwa [hkeys] at this

/-- C2 (amended): for every pair of files accepted without error,
`len(dataset)` equals the number of unique identifiers in the translation
file `text.tc.de` (the file the keys are derived from). -/
theorem len_eq_unique_translation_ids {W : Type} (loader : String → W)
    (tl trl : List String) (ds : CustomDataset W)
    (h : CustomDataset.init loader tl trl = Except.ok ds) :
    ds.len = (idsOf tl).dedup.length := by
  unfold CustomDataset.init at h
  cases h1 : tl.foldlM applyTransl [] with
  | error e => rw [h1] at h; cases h
  | ok d1 =>
    rw [h1, exceptBind_ok] at h
    cases h2 : trl.foldlM applyText d1 with
    | error e => rw [h2] at h; cases h
    | ok d2 =>
      rw [h2, exceptBind_ok] at h
      cases h
      obtain ⟨hnd, hmem⟩ := foldlM_applyTransl_keys tl [] d1 h1
      have hk2 := foldlM_applyText_keys trl d1 d2 h2
      have hnodup : (d1.map Prod.fst).Nodup := hnd (by simp)
      have hm : ∀ x, x ∈ d1.map Prod.fst ↔ x ∈ idsOf tl := by
        intro x
        simpa using hmem x
      show (d2.map Prod.fst).length = (idsOf tl).dedup.length
      rw [hk2]
      have hfin : (d1.map Prod.fst).toFinset = (idsOf tl).toFinset := by
        ext x
        simp only [List.mem_toFinset]
        exact hm x
      calc (d1.map Prod.fst).length
          = (d1.map Prod.fst).toFinset.card :=
            (List.toFinset_card_of_nodup hnodup).symm
        _ = (idsOf tl).toFinset.card := by rw [hfin]
        _ = (idsOf tl).dedup.length := List.card_toFinset _

/-- C2 (witness): a concrete accepted pair whose dataset length, 2, equals
the number of unique translation-file identifiers. -/
theorem len_eq_unique_translation_ids_witness :
    dsC2W.len = (idsOf ["u1 a", "u2 b", "u1 c"]).dedup.length :=
  len_eq_unique_translation_ids unitLoader ["u1 a", "u2 b", "u1 c"]
    ["u1 x"] dsC2W (by rfl)

/-- `__getitem__` at a valid non-negative index, written with the key it
resolves to. -/
theorem getitem_nat {W : Type} (ds : CustomDataset W) (i : Nat)
    (hi : i < ds.keys.length) :
    CustomDataset.getitem ds (i : Int)
      = (match assocFind ds.data (ds.keys.get ⟨i, hi⟩) with
         | none => Except.error (PyError.keyError (ds.keys.get ⟨i, hi⟩))
         | some r =>
           match r.text with
           | none => Except.error (PyError.keyError "text")
           | some t => Except.ok { speech := ds.loader (ds.keys.get ⟨i, hi⟩),
                                   text := t, translated := r.translated }) := by
  have h0 : (0 : Int) ≤ (i : Int) := Int.natCast_nonneg i
  have hc : (0 : Int) ≤ (i : Int) ∧ (i : Int) < (ds.keys.length : Int) :=
    ⟨h0, by exact_mod_cast hi⟩
  simp only [CustomDataset.getitem, if_pos h0]
  rw [dif_pos hc]
  simp only [Int.toNat_natCast]

/-- C4 (amended): after a successful construction every transcript-file
identifier appears in the translation file (an identifier only in the
transcript file makes `__init__` itself raise `KeyError`), while an
identifier only in the translation file leaves a record with no `text`
field, and accessing it fails at `__getitem__` time with
`KeyError('text')`. -/
theorem mismatch_handling_amended {W : Type} (loader : String → W)
    (tl trl : List String) (ds : CustomDataset W)
    (h : CustomDataset.init loader tl trl = Except.ok ds) :
    (∀ a ∈ idsOf trl, a ∈ idsOf tl)
    ∧ ∀ (i : Nat) (hi : i < ds.keys.length) (r : Entry),
        assocFind ds.data (ds.keys.get ⟨i, hi⟩) = some r → r.text = none →
        CustomDataset.getitem ds (i : Int)
          = Except.error (PyError.keyError "text") := by
  constructor
  · unfold CustomDataset.init at h
    cases h1 : tl.foldlM applyTransl [] with
    | error e => rw [h1] at h; cases h
    | ok d1 =>
      rw [h1, exceptBind_ok] at h
      cases h2 : trl.foldlM applyText d1 with
      | error e => rw [h2] at h; cases h
      | ok d2 =>
        obtain ⟨hnd, hmem⟩ := foldlM_applyTransl_keys tl [] d1 h1
        intro a ha
        have hin := foldlM_applyText_ids trl d1 d2 h2 a ha
        have h' := (hmem a).mp hin
        simpa using h'
  · intro i hi r hfind htext
    obtain ⟨tr, rt⟩ := r
    cases rt with
    | none => rw [getitem_nat ds i hi, hfind]
    | some t => cases htext

/-- C4 (witness): with `u2` only in the translation file, construction
succeeds and accessing index 1 raises `KeyError('text')`. -/
theorem mismatch_handling_amended_witness :
    CustomDataset.init unitLoader ["u1 a", "u2 b"] ["u1 x"]
        = Except.ok dsC4W
    ∧ CustomDataset.getitem dsC4W (1 : Int)
        = Except.error (PyError.keyError "text") := by
  refine ⟨rfl, ?_⟩
  exact (mismatch_handling_amended unitLoader ["u1 a", "u2 b"] ["u1 x"]
    dsC4W rfl).2 1 (by decide) { translated := "b", text := none } rfl rfl

/-- Running `forward` over a concatenation splits into two runs. -/
theorem runForward_append {W T : Type} (cfg : FTConfig W T) (st : FTState)
    (xs ys : List (Batch W T)) :
    runForward cfg st (xs ++ ys)
      = ((runForward cfg (runForward cfg st xs).1 ys).1,
         (runForward cfg st xs).2
           ++ (runForward cfg (runForward cfg st xs).1 ys).2) := by
  induction xs generalizing st with
  | nil => simp [runForward]
  | cons b bs ih => simp [runForward, ih, List.append_assoc]

/-- Running `forward` once. -/
theorem runForward_singleton {W T : Type} (cfg : FTConfig W T)
    (st : FTState) (b : Batch W T) :
    runForward cfg st [b]
      = ((CustomFinetuneModel.forward cfg st b.speech b.speech_lengths
            b.text b.text_lengths).state,
         (CustomFinetuneModel.forward cfg st b.speech b.speech_lengths
            b.text b.text_lengths).logged.toList) := by
  simp [runForward]

/-- One `forward` call on a non-empty batch with a non-zero `log_every`,
written through the loss it accumulates. -/
theorem forward_step {W T : Type} (cfg : FTConfig W T) (st : FTState)
    (b : Batch W T) (hb : b.speech ≠ []) (hk : cfg.log_every ≠ 0) :
    CustomFinetuneModel.forward cfg st b.speech b.speech_lengths b.text
        b.text_lengths
      = (if (st.iter_count + 1) % cfg.log_every = 0 then
          { state := { log_stats := { loss := 0 },
                       iter_count := st.iter_count + 1 },
            logged := some (st.iter_count + 1,
              (st.log_stats.loss + lossOf cfg b) / (cfg.log_every : ℚ)),
            result := Except.error (PyError.nameError "stats") }
         else
          { state := { log_stats :=
                         { loss := st.log_stats.loss + lossOf cfg b },
                       iter_count := st.iter_count + 1 },
            logged := none,
            result := Except.error (PyError.nameError "stats") }) := by
  obtain ⟨sp, sl, tx, tlg⟩ := b
  cases sp with
  | nil => exact absurd rfl hb
  | cons w ws =>
    simp only [CustomFinetuneModel.forward, lossOf]
    rw [if_neg hk]

/-- Appending one loss to a run whose length step completes a block of `k`
empties the pending sum. -/
theorem pend_snoc_dvd (k : Nat) (ls : List ℚ) (l : ℚ) (n : Nat)
    (hn : ls.length = n) (h : k ∣ n + 1) :
    (((ls ++ [l]).drop (k * ((n + 1) / k))).sum : ℚ) = 0 := by
  subst hn
  rw [Nat.mul_div_cancel' h,
    show ls.length + 1 = (ls ++ [l]).length by simp, List.drop_length]
  rfl

/-- Appending one loss inside a block of `k` adds it to the pending sum. -/
theorem pend_snoc_not_dvd (k : Nat) (ls : List ℚ) (l : ℚ) (n : Nat)
    (hn : ls.length = n) (h : ¬ k ∣ n + 1) :
    (((ls ++ [l]).drop (k * ((n + 1) / k))).sum : ℚ)
      = (ls.drop (k * (n / k))).sum + l := by
  subst hn
  rw [Nat.succ_div, if_neg h, Nat.add_zero,
    List.drop_append_of_le_length (by
      calc k * (ls.length / k) = ls.length / k * k := Nat.mul_comm _ _
        _ ≤ ls.length := Nat.div_mul_le_self _ _),
    List.sum_append, List.sum_singleton]

/-- Appending one loss extends the expected log list exactly when it
completes a block of `k` calls, the new entry carrying the block's mean. -/
theorem specExpectedLogs_snoc (k : Nat) (hk : 0 < k) (ls : List ℚ) (l : ℚ)
    (n : Nat) (hn : ls.length = n) :
    specExpectedLogs k (ls ++ [l]) =
      if k ∣ n + 1 then
        specExpectedLogs k ls
          ++ [(n + 1, ((ls.drop (k * (n / k))).sum + l) / (k : ℚ))]
      else specExpectedLogs k ls := by
  subst hn
  unfold specExpectedLogs
  rw [List.length_append, List.length_singleton, Nat.succ_div]
  by_cases hdvd : k ∣ ls.length + 1
  · rw [if_pos hdvd, if_pos hdvd, List.range_succ, List.map_append]
    congr 1
    · apply List.map_congr_left
      intro m hm
      rw [List.mem_range] at hm
      have hle : (m + 1) * k ≤ ls.length := by
        calc (m + 1) * k ≤ ls.length / k * k :=
              Nat.mul_le_mul_right k hm
          _ ≤ ls.length := Nat.div_mul_le_self _ _
      rw [List.take_append_of_le_length hle]
    · have hmul : (ls.length / k + 1) * k = ls.length + 1 := by
        have hcancel := Nat.div_mul_cancel hdvd
        rw [Nat.succ_div, if_pos hdvd] at hcancel
        exact hcancel
      have hle : ls.length / k * k ≤ ls.length :=
        Nat.div_mul_le_self _ _
      simp only [List.map_cons, List.map_nil]
      rw [hmul,
        show (ls ++ [l]).take (ls.length + 1) = ls ++ [l] by
          rw [show ls.length + 1 = (ls ++ [l]).length by simp,
            List.take_length],
        List.drop_append_of_le_length hle,
        List.sum_append, List.sum_singleton, Nat.mul_comm k]
  · rw [if_neg hdvd, if_neg hdvd, Nat.add_zero]
    apply List.map_congr_left
    intro m hm
    rw [List.mem_range] at hm
    have hle : (m + 1) * k ≤ ls.length := by
      calc (m + 1) * k ≤ ls.length / k * k :=
            Nat.mul_le_mul_right k hm
        _ ≤ ls.length := Nat.div_mul_le_self _ _
    rw [List.take_append_of_le_length hle]

/-- C7: over any sequence of `forward` calls on non-empty batches, a log
line is emitted exactly at every positive multiple of `log_every` calls,
carrying the arithmetic mean of the `log_every` most recent losses; the
accumulator afterwards holds exactly the losses since the last log (zero
right after a log). -/
theorem log_every_mean_logging {W T : Type} (cfg : FTConfig W T)
    (hk : 0 < cfg.log_every) (bs : List (Batch W T))
    (hne : ∀ b ∈ bs, b.speech ≠ []) :
    (runForward cfg FTState.initial bs).1
      = { log_stats := { loss := ((bs.map (lossOf cfg)).drop
            (cfg.log_every * (bs.length / cfg.log_every))).sum },
          iter_count := bs.length }
    ∧ (runForward cfg FTState.initial bs).2
        = specExpectedLogs cfg.log_every (bs.map (lossOf cfg)) := by
  induction bs using List.reverseRecOn with
  | nil =>
    refine ⟨?_, ?_⟩
    · simp [runForward, FTState.initial]
    · simp [runForward, specExpectedLogs]
  | append_singleton bs b ih =>
    have hne' : ∀ x ∈ bs, x.speech ≠ [] := fun x hx =>
      hne x (List.mem_append_left _ hx)
    have hb : b.speech ≠ [] :=
      hne b (List.mem_append_right _ (List.mem_singleton_self b))
    obtain ⟨ihs, ihl⟩ := ih hne'
    have hkne : cfg.log_every ≠ 0 := Nat.pos_iff_ne_zero.mp hk
    have hlen : (bs.map (lossOf cfg)).length = bs.length :=
      List.length_map bs (lossOf cfg)
    rw [runForward_append, ihs, ihl, runForward_singleton, forward_step cfg _ b hb hkne]
    simp only [List.map_append, List.map_cons, List.map_nil,
      List.length_append, List.length_singleton]
    by_cases hdvd : cfg.log_every ∣ bs.length + 1
    · have hmod : (bs.length + 1) % cfg.log_every = 0 :=
        Nat.dvd_iff_mod_eq_zero.mp hdvd
      rw [if_pos hmod,
        specExpectedLogs_snoc cfg.log_every hk (bs.map (lossOf cfg))
          (lossOf cfg b) bs.length hlen, if_pos hdvd]
      refine ⟨?_, ?_⟩
      · simp only [ForwardOut.state]
        rw [pend_snoc_dvd cfg.log_every (bs.map (lossOf cfg))
          (lossOf cfg b) bs.length hlen hdvd]
      · simp [Option.toList]
    · have hmod : ¬ (bs.length + 1) % cfg.log_every = 0 := fun h =>
        hdvd (Nat.dvd_iff_mod_eq_zero.mpr h)
      rw [if_neg hmod,
        specExpectedLogs_snoc cfg.log_every hk (bs.map (lossOf cfg))
          (lossOf cfg b) bs.length hlen, if_neg hdvd]
      refine ⟨?_, ?_⟩
      · simp only [ForwardOut.state]
        rw [pend_snoc_not_dvd cfg.log_every (bs.map (lossOf cfg))
          (lossOf cfg b) bs.length hlen hdvd]
      · simp [Option.toList]

/-- C7 (witness): with `log_every = 2` and three calls with losses 1, 2, 3,
the run logs exactly once, at call 2, the mean `3/2`, and afterwards holds
loss 3 pending. -/
theorem log_every_mean_logging_witness :
    (runForward cfgW FTState.initial batchesW).1
      = { log_stats := { loss := ((batchesW.map (lossOf cfgW)).drop
            (cfgW.log_every * (batchesW.length / cfgW.log_every))).sum },
          iter_count := batchesW.length }
    ∧ (runForward cfgW FTState.initial batchesW).2
        = specExpectedLogs cfgW.log_every (batchesW.map (lossOf cfgW)) :=
  log_every_mean_logging cfgW (by decide) batchesW (by decide)
